import Mathlib

/-!
Verification development for `vcf2seq` (Bio2M/vcf2seq, `src/vcf2seq/vcf2seq.py`).

Shallow embedding conventions:
* Python strings (VCF fields, alleles, sequences) are `List Char`.
* Python integers are `Int`; Python floor division `//` is `Int.fdiv`,
  and Python `n & 1` / `n % 2` is `Int.emod` (both agree on negatives).
* The pyfaidx genome object is a partial map from chromosome name to its
  base list; `fetch` models half-open 0-based interval access.
* `sys.exit` and uncaught Python exceptions (ValueError from `int(...)`
  or tuple unpacking, IndexError, KeyError) are `Except.error` values:
  each aborts the whole run with a non-zero exit status.
* Warnings are tagged constructors carrying exactly the data the Python
  message interpolates.
-/

namespace Vcf2seq

/-- Python `str.rstrip('\n')`: drop trailing newline characters. -/
def rstripNl (l : List Char) : List Char :=
  (l.reverse.dropWhile (fun c => c == '\n')).reverse

/-- Python `str.startswith('#')`. -/
def startsHash : List Char → Bool
  | '#' :: _ => true
  | _ => false

/-- Python `str.split(sep)` for a one-character separator: keeps empty
pieces, and `"".split(sep) == [""]`, so the result is never empty. -/
def splitOnChar (sep : Char) : List Char → List (List Char)
  | [] => [[]]
  | c :: rest =>
    let r := splitOnChar sep rest
    if c = sep then [] :: r
    else
      match r with
      | [] => [[c]]
      | h :: t => (c :: h) :: t

/-- Python `str.isdigit` (ASCII model): nonempty and all digits. -/
def pyIsdigit (l : List Char) : Bool :=
  !l.isEmpty && l.all Char.isDigit

/-- Python whitespace characters recognised by `int(...)` stripping. -/
def isPySpace (c : Char) : Bool :=
  c == ' ' || c == '\t' || c == '\n' || c == '\r' || c == '\x0b' || c == '\x0c'

/-- Strip leading and trailing whitespace. -/
def pyStrip (l : List Char) : List Char :=
  ((l.dropWhile isPySpace).reverse.dropWhile isPySpace).reverse

/-- Numeric value of a digit list. -/
def digitsVal (l : List Char) : Nat :=
  l.foldl (fun acc c => 10 * acc + (c.toNat - '0'.toNat)) 0

/-- Python `int(s)` (ASCII model): optional surrounding whitespace, an
optional sign, then at least one digit; `none` models the `ValueError`
raised on anything else. -/
def pyInt (l : List Char) : Option Int :=
  match pyStrip l with
  | [] => none
  | c :: rest =>
    if c = '+' then
      if rest ≠ [] ∧ rest.all Char.isDigit then some (digitsVal rest) else none
    else if c = '-' then
      if rest ≠ [] ∧ rest.all Char.isDigit then some (-(digitsVal rest : Int)) else none
    else
      if (c :: rest).all Char.isDigit then some (digitsVal (c :: rest)) else none

/-- Modelled from the spec: the SequenceProvider interface (pyfaidx slicing
`chr_dict[chr][start:stop]`, external to this repository).  It returns the
bases of the half-open 0-based interval `[start, stop)`, a shorter list when
the interval runs past a sequence boundary, and `[]` for a non-positive
length interval. -/
def fetch (s : List Char) (start stop : Int) : List Char :=
  (s.take stop.toNat).drop start.toNat

/-- `--type` command line choice. -/
inductive OutType
  | ref
  | alt
  | both
  deriving DecidableEq, Repr

/-- The configuration relevant to `compute`/`vcf_ctrl`/`write`:
`size` is `args.size` (the window length K), `blank` is `args.blank`,
`outType` is `args.type`, `addCols` is `cols_id` (the 1-based column
indices produced from `args.add_columns`; empty when the option is absent). -/
structure Config where
  size : Int
  blank : List Char
  outType : OutType
  addCols : List Nat
  deriving DecidableEq, Repr

/-- The pyfaidx `Fasta` object: chromosome name to base list. -/
def Genome := List Char → Option (List Char)

/-- Recoverable warnings (`warnings.append(...)` in `compute`), tagged with
the data interpolated into the Python message. -/
inductive Warning
  | largeAlteration (chr pos ref alt : List Char)
  | refMismatch (numRow : Nat) (chr : List Char) (psRef2 : Int)
      (refVcf seqRef2 : List Char)
  | altTooLong (altLen : Nat) (size : Int) (numRow : Nat)
  | badSize (altLen : Nat) (size : Int) (numRow : Nat)
  deriving DecidableEq, Repr

/-- Fatal conditions: `sys.exit(...)` calls and uncaught Python exceptions. -/
inductive Err
  | vcfFormatPos (pos : List Char)
  | chrMismatch (chr : List Char)
  | unpackTooFew (n : Nat)
  | addColumnsTooMany (m n : Nat)
  | emptyAllele (numRow : Nat)
  | invalidBase (c : Char) (numRow : Nat)
  | intParseFail (s : List Char)
  | chrNotFound (chr : List Char)
  | indexCrash
  deriving DecidableEq, Repr

/-- One output record: the header line (with `_ref `/`_alt ` suffix and the
joined auxiliary columns) and the sequence line. -/
structure SeqRecord where
  header : List Char
  sequence : List Char
  deriving DecidableEq, Repr

/-- Effective allele length: 0 for the blank marker, else the literal
character count (`l_ref2`/`l_alt2`, lines 128/137). -/
def effLen (cfg : Config) (a : List Char) : Int :=
  if a = cfg.blank then 0 else (a.length : Int)

/-- The parity correction (lines 116-125).  Note the parity tests use the
allele's literal length `len(ref)` / `len(alt)`, also when the allele is the
blank marker. -/
def corr (cfg : Config) (a : List Char) : Int :=
  if cfg.size % 2 = 0 then
    if a.length % 2 = 1 ∧ a ≠ cfg.blank then 1 else 0
  else
    (if a.length % 2 = 0 then 1 else 0) + (if a = cfg.blank then 1 else 0)

/-- Left flank length, allele segment length, right flank length for one
allele (`l_ref1/l_ref2/l_ref3`, lines 128-130, and `l_alt1/l_alt2/l_alt3`,
lines 137-139). -/
structure WindowCalc where
  l1 : Int
  l2 : Int
  l3 : Int
  deriving DecidableEq, Repr

/-- Window lengths for one allele; `Int.fdiv` is Python `//`. -/
def windowCalc (cfg : Config) (a : List Char) : WindowCalc :=
  let l2 := effLen cfg a
  ⟨Int.fdiv (cfg.size - l2) 2, l2, Int.fdiv (cfg.size - l2) 2 + corr cfg a⟩

/-- Lines 127-147: the REF window and the ALT window for one variant allele
pair.  `posInt` is the parsed 1-based position; `ps_ref2 = posInt - 1`. -/
def computePair (cfg : Config) (gseq : List Char) (posInt : Int)
    (ref alt : List Char) : List Char × List Char :=
  let wRef := windowCalc cfg ref
  let psRef2 := posInt - 1
  let psRef1 := psRef2 - wRef.l1
  let peRef3 := psRef2 + wRef.l2 + wRef.l3
  let refSeq := fetch gseq psRef1 peRef3
  let wAlt := windowCalc cfg alt
  let psAlt1 := psRef2 - wAlt.l1
  let psAlt3 := psRef2 + wRef.l2
  let peAlt3 := psAlt3 + wAlt.l3
  let seqAlt1 := fetch gseq psAlt1 psRef2
  let altTxt := if alt = cfg.blank then [] else alt
  let seqAlt3 := fetch gseq psAlt3 peAlt3
  (refSeq, seqAlt1 ++ altTxt ++ seqAlt3)

/-- Line 91-96: the first base of REF and of ALT must be in
`["A", "T", "C", "G", args.blank]`; `ref[0]` on an empty string raises
IndexError (also fatal). -/
def nucOkChar (cfg : Config) (c : Char) : Bool :=
  c == 'A' || c == 'T' || c == 'C' || c == 'G' || [c] == cfg.blank

/-- Check the first base of one allele string. -/
def checkFirstBase (cfg : Config) (numRow : Nat) (a : List Char) :
    Except Err Unit :=
  match a with
  | [] => .error (.emptyAllele numRow)
  | c :: _ => if nucOkChar cfg c then .ok () else .error (.invalidBase c numRow)

/-- Python `max(cols_id)` (guarded by `cols_id` nonempty at use site). -/
def maxNat (l : List Nat) : Nat :=
  l.foldl max 0

/-- The per-allele processing of lines 83-165 after the fatal checks have
passed: returns the warnings this allele appends (in order) and the accepted
pair of records, if any. -/
def evalCore (cfg : Config) (numRow : Nat) (fields : List (List Char))
    (chr position ref alt : List Char) (posInt : Int) (gseq : List Char) :
    List Warning × Option (SeqRecord × SeqRecord) :=
  let header := '>' :: (chr ++ ['_'] ++ position ++ ['_'] ++ ref ++ ['_'] ++ alt)
  let w1 : List Warning :=
    if ((max ref.length alt.length : Nat) : Int) > cfg.size then
      [.largeAlteration chr position ref alt]
    else []
  let psRef2 := posInt - 1
  let pair := computePair cfg gseq posInt ref alt
  let refSeq := pair.1
  let altSeq := pair.2
  let lRef2 := effLen cfg ref
  let seqRef2 := fetch gseq psRef2 (psRef2 + lRef2)
  let w2 : List Warning :=
    if lRef2 ≠ 0 ∧ ref ≠ seqRef2 then
      [.refMismatch numRow chr psRef2 ref seqRef2]
    else []
  let colTxt := List.intercalate [' '] (cfg.addCols.map fun n => fields.getD (n - 1) [])
  if (refSeq.length : Int) = cfg.size ∧ (altSeq.length : Int) = cfg.size then
    (w1 ++ w2,
      some (⟨header ++ "_ref ".toList ++ colTxt, refSeq⟩,
            ⟨header ++ "_alt ".toList ++ colTxt, altSeq⟩))
  else if (altSeq.length : Int) > cfg.size then
    (w1 ++ w2 ++ [.altTooLong altSeq.length cfg.size numRow], none)
  else
    (w1 ++ w2 ++ [.badSize altSeq.length cfg.size numRow], none)

/-- One allele of one row (the body of `for alt in alts`, lines 81-165):
fatal checks in source order, then `evalCore`. -/
def evalAllele (cfg : Config) (g : Genome) (numRow : Nat)
    (fields : List (List Char)) (chr position ref alt : List Char) :
    Except Err (List Warning × Option (SeqRecord × SeqRecord)) :=
  match checkFirstBase cfg numRow ref with
  | .error e => .error e
  | .ok _ =>
    match checkFirstBase cfg numRow alt with
    | .error e => .error e
    | .ok _ =>
      match pyInt position with
      | none => .error (.intParseFail position)
      | some posInt =>
        match g chr with
        | none => .error (.chrNotFound chr)
        | some gseq => .ok (evalCore cfg numRow fields chr position ref alt posInt gseq)

/-- Accumulated `res_ref`, `res_alt` and `warnings` lists of `compute`. -/
structure CState where
  resRef : List SeqRecord
  resAlt : List SeqRecord
  warnings : List Warning
  deriving DecidableEq, Repr

/-- Process one allele and extend the accumulated state. -/
def stepAllele (cfg : Config) (g : Genome) (numRow : Nat)
    (fields : List (List Char)) (chr position ref : List Char)
    (st : CState) (alt : List Char) : Except Err CState :=
  match evalAllele cfg g numRow fields chr position ref alt with
  | .error e => .error e
  | .ok (ws, none) => .ok ⟨st.resRef, st.resAlt, st.warnings ++ ws⟩
  | .ok (ws, some pr) =>
      .ok ⟨st.resRef ++ [pr.1], st.resAlt ++ [pr.2], st.warnings ++ ws⟩

/-- The `for alt in alts` loop. -/
def foldAlts (cfg : Config) (g : Genome) (numRow : Nat)
    (fields : List (List Char)) (chr position ref : List Char) :
    CState → List (List Char) → Except Err CState
  | st, [] => .ok st
  | st, a :: rest =>
    match stepAllele cfg g numRow fields chr position ref st a with
    | .error e => .error e
    | .ok st' => foldAlts cfg g numRow fields chr position ref st' rest

/-- The body of one non-skipped row given its split fields: unpack the first
five (ValueError when fewer), check `--add-columns` against the column count,
then loop over the comma-separated alternate alleles. -/
def processFields (cfg : Config) (g : Genome) (numRow : Nat)
    (fields : List (List Char)) (st : CState) : Except Err CState :=
  match fields with
  | chr :: position :: _id :: ref :: altsCol :: _ =>
    if cfg.addCols ≠ [] ∧ maxNat cfg.addCols > fields.length then
      .error (.addColumnsTooMany (maxNat cfg.addCols) fields.length)
    else
      foldAlts cfg g numRow fields chr position ref st (splitOnChar ',' altsCol)
  | _ => .error (.unpackTooFew fields.length)

/-- One row of the `for variant in args.vcf` loop (lines 68-165): skip empty
and comment rows, split the fields, then `processFields`. -/
def processRow (cfg : Config) (g : Genome) (numRow : Nat) (row : List Char)
    (st : CState) : Except Err CState :=
  if rstripNl row = [] ∨ startsHash row then .ok st
  else processFields cfg g numRow (splitOnChar '\t' (rstripNl row)) st

/-- The row loop with `num_row` counting every input row (line 69). -/
def foldRows (cfg : Config) (g : Genome) :
    Nat → List (List Char) → CState → Except Err CState
  | _, [], st => .ok st
  | n, row :: rest, st =>
    match processRow cfg g (n + 1) row st with
    | .error e => .error e
    | .ok st' => foldRows cfg g (n + 1) rest st'

/-- The `type == 'both'` interleaving loop (lines 171-175): for each index of
`res_alt` it reads `res_ref[i]`; `none` models the IndexError raised when
`res_ref` is shorter than `res_alt`. -/
def pyInterleave (resRef resAlt : List SeqRecord) : Option (List SeqRecord) :=
  if resAlt.length ≤ resRef.length then
    some (((resRef.take resAlt.length).zip resAlt).flatMap fun p => [p.1, p.2])
  else none

/-- Lines 167-176: select which accumulated list is returned. -/
def selectResults (cfg : Config) (st : CState) : Except Err (List SeqRecord) :=
  match cfg.outType with
  | .alt => .ok st.resAlt
  | .ref => .ok st.resRef
  | .both =>
    match pyInterleave st.resRef st.resAlt with
    | some l => .ok l
    | none => .error .indexCrash

/-- The whole `compute(args, chr_dict)` (lines 62-176). -/
def compute (cfg : Config) (g : Genome) (rows : List (List Char)) :
    Except Err (List SeqRecord × List Warning) :=
  match foldRows cfg g 0 rows ⟨[], [], []⟩ with
  | .error e => .error e
  | .ok st =>
    match selectResults cfg st with
    | .error e => .error e
    | .ok res => .ok (res, st.warnings)

/-- First row not starting with `#` (the `vcf_ctrl` loop with its `break`). -/
def firstNonComment : List (List Char) → Option (List Char)
  | [] => none
  | r :: rest => if startsHash r then firstNonComment rest else some r

/-- `vcf_ctrl(args, chr_dict)` (lines 41-59): check position digits and
chromosome membership on the first non-comment row only. -/
def vcf_ctrl (_cfg : Config) (g : Genome) (rows : List (List Char)) :
    Except Err Unit :=
  match firstNonComment rows with
  | none => .ok ()
  | some row =>
    match splitOnChar '\t' (rstripNl row) with
    | chr :: pos :: _id :: _ref :: _alt :: _ =>
      if ¬ pyIsdigit pos then .error (.vcfFormatPos pos)
      else
        match g chr with
        | none => .error (.chrMismatch chr)
        | some _ => .ok ()
    | fs => .error (.unpackTooFew fs.length)

/-- `main`'s processing pipeline after the genome is loaded:
`vcf_ctrl` then `compute` (lines 36-37). -/
def run (cfg : Config) (g : Genome) (rows : List (List Char)) :
    Except Err (List SeqRecord × List Warning) :=
  match vcf_ctrl cfg g rows with
  | .error e => .error e
  | .ok _ => compute cfg g rows

/-- A record as the string appended to `res_ref`/`res_alt`:
`f"{header} {col_txt}\n{seq}"` split into its two lines. -/
def renderRecord (r : SeqRecord) : List Char :=
  r.header ++ '\n' :: r.sequence

/-- The file content produced by `write` (lines 186-190): `open(..., 'w')`
truncates the file, and `fh.write` runs only when `results` is nonempty, so
an all-rejected run leaves the output file empty. -/
def writeContent (results : List SeqRecord) : List Char :=
  if results = [] then []
  else List.intercalate ['\n'] (results.map renderRecord) ++ ['\n']

/-- The accepted pair an allele contributes, ignoring fatal errors (used to
state order preservation; under a successful `compute` no error occurs). -/
def acceptedOfAllele (cfg : Config) (g : Genome) (numRow : Nat)
    (fields : List (List Char)) (chr position ref alt : List Char) :
    Option (SeqRecord × SeqRecord) :=
  match evalAllele cfg g numRow fields chr position ref alt with
  | .ok (_, acc) => acc
  | .error _ => none

/-- The accepted pairs contributed by one row's split fields, in the listed
order of its comma-separated alternate alleles. -/
def fieldsAccepted (cfg : Config) (g : Genome) (numRow : Nat)
    (fields : List (List Char)) : List (SeqRecord × SeqRecord) :=
  match fields with
  | chr :: position :: _id :: ref :: altsCol :: _ =>
    if cfg.addCols ≠ [] ∧ maxNat cfg.addCols > fields.length then []
    else
      (splitOnChar ',' altsCol).filterMap
        (acceptedOfAllele cfg g numRow fields chr position ref)
  | _ => []

/-- The accepted pairs of one row, in the listed order of its
comma-separated alternate alleles. -/
def rowAccepted (cfg : Config) (g : Genome) (numRow : Nat) (row : List Char) :
    List (SeqRecord × SeqRecord) :=
  if rstripNl row = [] ∨ startsHash row then []
  else fieldsAccepted cfg g numRow (splitOnChar '\t' (rstripNl row))

/-- All accepted pairs of the input, in input order. -/
def orderedAccepted (cfg : Config) (g : Genome) :
    Nat → List (List Char) → List (SeqRecord × SeqRecord)
  | _, [] => []
  | n, row :: rest =>
    rowAccepted cfg g (n + 1) row ++ orderedAccepted cfg g (n + 1) rest

/-! ## Concrete example inputs (used by the closed witness theorems) -/

/-- Window length 7, blank `.`, output `both`, no auxiliary columns. -/
def cfgEx : Config := ⟨7, ['.'], OutType.both, []⟩

/-- Window length 31 (the tool's default), blank `.`, output `alt`. -/
def cfg31Ex : Config := ⟨31, ['.'], OutType.alt, []⟩

/-- A 16-base chromosome with an `A` at 0-based index 9. -/
def gseqEx : List Char := "CCCTTTGGGACCCGGG".toList

/-- A genome holding the single chromosome `chr1`. -/
def genomeEx : Genome := fun c => if c = "chr1".toList then some gseqEx else none

def chr1Ex : List Char := "chr1".toList

/-- A comment row followed by one substitution variant row. -/
def rowsEx : List (List Char) := ["#comment".toList, "chr1\t10\t.\tA\tG".toList]

/-- A valid first row followed by a row with a non-numeric position column. -/
def rows6Ex : List (List Char) :=
  ["chr1\t10\t.\tA\tG".toList, "chr1\tXX\t.\tA\tG".toList]

/-- One variant too close to the chromosome start: its windows are short and
the pair is rejected, so nothing is accepted. -/
def rows7Ex : List (List Char) := ["chr1\t2\t.\tC\tG".toList]

/-- A 40-base alternate allele (longer than the default window of 31). -/
def altLongEx : List Char := List.replicate 40 'A'

def fieldsC5Ex : List (List Char) :=
  [chr1Ex, "100".toList, ['.'], ['A'], altLongEx]

def wATEx : List Char := ['A', 'T']

def recRefEx : SeqRecord := ⟨">chr1_10_A_G_ref ".toList, "GGGACCC".toList⟩

def recAltEx : SeqRecord := ⟨">chr1_10_A_G_alt ".toList, "GGGGCCC".toList⟩

def resEx : List SeqRecord := [recRefEx, recAltEx]

def stEx : CState := ⟨[recRefEx], [recAltEx], []⟩

/-! ## Arithmetic helper lemmas -/

theorem two_fdiv_add_emod (n : Int) : 2 * Int.fdiv n 2 + n % 2 = n := by
  rw [Int.fdiv_eq_ediv n (by norm_num : (0 : Int) ≤ 2)]
  omega

theorem corr_nonneg (cfg : Config) (a : List Char) : 0 ≤ corr cfg a := by
  unfold corr
  split_ifs <;> omega

theorem corr_le_one_of_ne_blank (cfg : Config) (a : List Char)
    (h : a ≠ cfg.blank) : corr cfg a ≤ 1 := by
  unfold corr
  split_ifs <;> omega

theorem corr_eq_of_ne_blank (cfg : Config) (a : List Char) (h : a ≠ cfg.blank) :
    corr cfg a = (cfg.size - (a.length : Int)) % 2 := by
  rcases Int.emod_two_eq cfg.size with hs | hs <;>
    rcases Nat.mod_two_eq_zero_or_one a.length with hl | hl <;>
      simp [corr, h, hs, hl] <;> omega

theorem corr_blank (cfg : Config) (hB : cfg.blank.length = 1) :
    corr cfg cfg.blank = cfg.size % 2 := by
  rcases Int.emod_two_eq cfg.size with hs | hs <;> simp [corr, hB, hs]

theorem windowCalc_sum_of_ne_blank (cfg : Config) (a : List Char)
    (h : a ≠ cfg.blank) :
    (windowCalc cfg a).l1 + (windowCalc cfg a).l2 + (windowCalc cfg a).l3 =
      cfg.size := by
  have hc := corr_eq_of_ne_blank cfg a h
  have h2 := two_fdiv_add_emod (cfg.size - (a.length : Int))
  simp only [windowCalc, effLen, if_neg h]
  omega

theorem windowCalc_sum (cfg : Config) (a : List Char)
    (hB : cfg.blank.length = 1) :
    (windowCalc cfg a).l1 + (windowCalc cfg a).l2 + (windowCalc cfg a).l3 =
      cfg.size := by
  by_cases h : a = cfg.blank
  · subst h
    have hc := corr_blank cfg hB
    have h2 := two_fdiv_add_emod cfg.size
    simp [windowCalc, effLen, hc]
    omega
  · exact windowCalc_sum_of_ne_blank cfg a h

/-! ## Fetch lemmas -/

theorem fetch_length (s : List Char) (a b : Int) :
    (fetch s a b).length = min b.toNat s.length - a.toNat := by
  simp [fetch, List.length_drop, List.length_take]

theorem fetch_nil_of_le (s : List Char) {a b : Int} (h : b ≤ a) :
    fetch s a b = [] := by
  have hl : (fetch s a b).length = 0 := by
    rw [fetch_length]
    have h1 : min b.toNat s.length ≤ b.toNat := Nat.min_le_left _ _
    have h2 := Int.toNat_le_toNat h
    omega
  exact List.eq_nil_of_length_eq_zero hl

theorem take_drop_split {α : Type} (s : List α) (a b c : Nat)
    (hab : a ≤ b) (hbc : b ≤ c) :
    (s.take c).drop a = (s.take b).drop a ++ (s.take c).drop b := by
  have hbt : s.take b = (s.take c).take b := by
    rw [List.take_take, min_eq_left hbc]
  rw [hbt]
  by_cases hle : a ≤ ((s.take c).take b).length
  · conv_lhs => rw [← List.take_append_drop b (s.take c)]
    rw [List.drop_append_of_le_length hle]
  · have h1 : ((s.take c).take b).length = min b (s.take c).length := by
      simp [List.length_take]
    have h2 : (s.take c).length < a := by
      rcases Nat.le_total b (s.take c).length with hmin | hmin
      · rw [min_eq_left hmin] at h1
        omega
      · rw [min_eq_right hmin] at h1
        omega
    rw [List.drop_eq_nil_of_le (le_of_lt h2),
        List.drop_eq_nil_of_le (by omega : ((s.take c).take b).length ≤ a),
        List.drop_eq_nil_of_le (by omega : (s.take c).length ≤ b)]
    rfl

theorem fetch_append (s : List Char) {a b c : Int} (hab : a ≤ b) (hbc : b ≤ c) :
    fetch s a c = fetch s a b ++ fetch s b c := by
  unfold fetch
  exact take_drop_split s a.toNat b.toNat c.toNat
    (Int.toNat_le_toNat hab) (Int.toNat_le_toNat hbc)

theorem fetch_length_le (s : List Char) (a b : Int) :
    (fetch s a b).length ≤ (b - a).toNat := by
  rw [fetch_length]
  have h1 : min b.toNat s.length ≤ b.toNat := Nat.min_le_left _ _
  omega

theorem fetch_center (s : List Char) (p : Int)
    (h : (fetch s p (p + 1)).length = 1) :
    0 ≤ p ∧ ∃ ch, fetch s p (p + 1) = [ch] ∧ s[p.toNat]? = some ch := by
  have hl := fetch_length s p (p + 1)
  have hmin : min (p + 1).toNat s.length ≤ (p + 1).toNat := Nat.min_le_left _ _
  have hp : 0 ≤ p := by omega
  have he : (p + 1).toNat = p.toNat + 1 := by omega
  have hfe : fetch s p (p + 1) = (s.drop p.toNat).take 1 := by
    unfold fetch
    rw [he, List.drop_take]
    congr 1
    omega
  rcases hd : s.drop p.toNat with _ | ⟨c, t⟩
  · rw [hfe, hd] at h
    simp at h
  · refine ⟨hp, c, ?_, ?_⟩
    · rw [hfe, hd]
      rfl
    · have hg := List.getElem?_drop s p.toNat 0
      rw [hd] at hg
      simpa using hg.symm

/-! ## Shape lemmas for the per-allele evaluation -/

theorem evalCore_accept (cfg : Config) (numRow : Nat) (fields : List (List Char))
    (chr position ref alt : List Char) (posInt : Int) (gseq : List Char)
    (ws : List Warning) (pr : SeqRecord × SeqRecord)
    (h : evalCore cfg numRow fields chr position ref alt posInt gseq = (ws, some pr)) :
    pr.1.sequence = (computePair cfg gseq posInt ref alt).1 ∧
    pr.2.sequence = (computePair cfg gseq posInt ref alt).2 ∧
    (pr.1.sequence.length : Int) = cfg.size ∧
    (pr.2.sequence.length : Int) = cfg.size := by
  unfold evalCore at h
  by_cases hacc : ((computePair cfg gseq posInt ref alt).1.length : Int) = cfg.size ∧
      ((computePair cfg gseq posInt ref alt).2.length : Int) = cfg.size
  · rw [if_pos hacc, Prod.mk.injEq, Option.some.injEq] at h
    rcases h with ⟨-, h⟩
    subst h
    exact ⟨rfl, rfl, hacc.1, hacc.2⟩
  · rw [if_neg hacc] at h
    by_cases h2 : ((computePair cfg gseq posInt ref alt).2.length : Int) > cfg.size
    · rw [if_pos h2] at h
      simp at h
    · rw [if_neg h2] at h
      simp at h

theorem evalAllele_ok_shape (cfg : Config) (g : Genome) (numRow : Nat)
    (fields : List (List Char)) (chr position ref alt : List Char)
    (ws : List Warning) (acc : Option (SeqRecord × SeqRecord))
    (h : evalAllele cfg g numRow fields chr position ref alt = .ok (ws, acc)) :
    ∃ posInt gseq, pyInt position = some posInt ∧ g chr = some gseq ∧
      evalCore cfg numRow fields chr position ref alt posInt gseq = (ws, acc) := by
  unfold evalAllele at h
  rcases h1 : checkFirstBase cfg numRow ref with e | u <;> rw [h1] at h
  · cases h
  · rcases h2 : checkFirstBase cfg numRow alt with e | u' <;> rw [h2] at h
    · cases h
    · rcases h3 : pyInt position with _ | posInt <;> rw [h3] at h
      · cases h
      · rcases h4 : g chr with _ | gseq <;> rw [h4] at h
        · cases h
        · injection h with h5
          exact ⟨posInt, gseq, rfl, rfl, h5⟩

theorem acceptedOfAllele_lengths (cfg : Config) (g : Genome) (numRow : Nat)
    (fields : List (List Char)) (chr position ref alt : List Char)
    (pr : SeqRecord × SeqRecord)
    (h : acceptedOfAllele cfg g numRow fields chr position ref alt = some pr) :
    (pr.1.sequence.length : Int) = cfg.size ∧
    (pr.2.sequence.length : Int) = cfg.size := by
  unfold acceptedOfAllele at h
  rcases he : evalAllele cfg g numRow fields chr position ref alt with e | ⟨ws, acc⟩ <;>
    rw [he] at h
  · cases h
  · subst h
    rcases evalAllele_ok_shape cfg g numRow fields chr position ref alt ws (some pr) he with
      ⟨posInt, gseq, -, -, hcore⟩
    rcases evalCore_accept cfg numRow fields chr position ref alt posInt gseq ws pr hcore with
      ⟨-, -, hr, ha⟩
    exact ⟨hr, ha⟩

/-! ## Fold characterization: a successful `compute` accumulates exactly the
accepted pairs, in input order -/

theorem stepAllele_ok (cfg : Config) (g : Genome) (numRow : Nat)
    (fields : List (List Char)) (chr position ref alt : List Char)
    (st st' : CState)
    (h : stepAllele cfg g numRow fields chr position ref st alt = .ok st') :
    st'.resRef = st.resRef ++
      ((acceptedOfAllele cfg g numRow fields chr position ref alt).toList.map Prod.fst) ∧
    st'.resAlt = st.resAlt ++
      ((acceptedOfAllele cfg g numRow fields chr position ref alt).toList.map Prod.snd) := by
  unfold stepAllele acceptedOfAllele at *
  rcases he : evalAllele cfg g numRow fields chr position ref alt with e | ⟨ws, acc⟩ <;>
    rw [he] at h
  · cases h
  · rcases acc with _ | pr
    · injection h with h'
      subst h'
      simp
    · injection h with h'
      subst h'
      simp

theorem foldAlts_ok (cfg : Config) (g : Genome) (numRow : Nat)
    (fields : List (List Char)) (chr position ref : List Char)
    (alts : List (List Char)) (st st' : CState)
    (h : foldAlts cfg g numRow fields chr position ref st alts = .ok st') :
    st'.resRef = st.resRef ++
      ((alts.filterMap (acceptedOfAllele cfg g numRow fields chr position ref)).map Prod.fst) ∧
    st'.resAlt = st.resAlt ++
      ((alts.filterMap (acceptedOfAllele cfg g numRow fields chr position ref)).map Prod.snd) := by
  induction alts generalizing st with
  | nil =>
    unfold foldAlts at h
    injection h with h'
    subst h'
    simp
  | cons a rest ih =>
    unfold foldAlts at h
    rcases hs : stepAllele cfg g numRow fields chr position ref st a with e | st1 <;>
      rw [hs] at h
    · cases h
    · rcases stepAllele_ok cfg g numRow fields chr position ref a st st1 hs with ⟨hr, ha⟩
      rcases ih st1 h with ⟨hr2, ha2⟩
      rcases hacc : acceptedOfAllele cfg g numRow fields chr position ref a with _ | pr <;>
        rw [hacc] at hr ha <;> simp at hr ha <;>
          simp [List.filterMap_cons, hacc, hr, ha, hr2, ha2]

theorem processFields_ok (cfg : Config) (g : Genome) (numRow : Nat)
    (fields : List (List Char)) (st st' : CState)
    (h : processFields cfg g numRow fields st = .ok st') :
    st'.resRef = st.resRef ++ ((fieldsAccepted cfg g numRow fields).map Prod.fst) ∧
    st'.resAlt = st.resAlt ++ ((fieldsAccepted cfg g numRow fields).map Prod.snd) := by
  rcases fields with _ | ⟨chr, _ | ⟨position, _ | ⟨idc, _ | ⟨ref, _ | ⟨altsCol, rest5⟩⟩⟩⟩⟩
  · cases h
  · cases h
  · cases h
  · cases h
  · cases h
  · simp only [processFields] at h
    simp only [fieldsAccepted]
    by_cases hcols : cfg.addCols ≠ [] ∧
        maxNat cfg.addCols > (chr :: position :: idc :: ref :: altsCol :: rest5).length
    · rw [if_pos hcols] at h
      cases h
    · rw [if_neg hcols] at h
      rw [if_neg hcols]
      exact foldAlts_ok cfg g numRow _ chr position ref _ st st' h

theorem processRow_ok (cfg : Config) (g : Genome) (numRow : Nat)
    (row : List Char) (st st' : CState)
    (h : processRow cfg g numRow row st = .ok st') :
    st'.resRef = st.resRef ++ ((rowAccepted cfg g numRow row).map Prod.fst) ∧
    st'.resAlt = st.resAlt ++ ((rowAccepted cfg g numRow row).map Prod.snd) := by
  unfold processRow at h
  unfold rowAccepted
  by_cases hskip : rstripNl row = [] ∨ startsHash row = true
  · rw [if_pos hskip] at h
    rw [if_pos hskip]
    injection h with h'
    subst h'
    simp
  · rw [if_neg hskip] at h
    rw [if_neg hskip]
    exact processFields_ok cfg g numRow _ st st' h

theorem foldRows_ok (cfg : Config) (g : Genome) (n : Nat)
    (rows : List (List Char)) (st st' : CState)
    (h : foldRows cfg g n rows st = .ok st') :
    st'.resRef = st.resRef ++ ((orderedAccepted cfg g n rows).map Prod.fst) ∧
    st'.resAlt = st.resAlt ++ ((orderedAccepted cfg g n rows).map Prod.snd) := by
  induction rows generalizing n st with
  | nil =>
    unfold foldRows at h
    injection h with h'
    subst h'
    simp [orderedAccepted]
  | cons row rest ih =>
    unfold foldRows at h
    rcases hp : processRow cfg g (n + 1) row st with e | st1 <;> rw [hp] at h
    · cases h
    · rcases processRow_ok cfg g (n + 1) row st st1 hp with ⟨hr, ha⟩
      rcases ih (n + 1) st1 h with ⟨hr2, ha2⟩
      unfold orderedAccepted
      simp [hr2, hr, ha2, ha]

/-! ## Interleaving and selection lemmas -/

theorem zip_map_fst_snd {α β : Type} (l : List (α × β)) :
    (l.map Prod.fst).zip (l.map Prod.snd) = l := by
  induction l with
  | nil => rfl
  | cons a t ih => simp [ih]

theorem pyInterleave_of_eq_length (rs as : List SeqRecord)
    (h : rs.length = as.length) :
    pyInterleave rs as = some ((rs.zip as).flatMap fun p => [p.1, p.2]) := by
  unfold pyInterleave
  rw [if_pos (le_of_eq h.symm), ← h, List.take_length]

theorem mem_pyInterleave (rs as l : List SeqRecord) (r : SeqRecord)
    (h : pyInterleave rs as = some l) (hm : r ∈ l) : r ∈ rs ∨ r ∈ as := by
  unfold pyInterleave at h
  split_ifs at h with hle
  · injection h with h'
    subst h'
    rw [List.mem_flatMap] at hm
    rcases hm with ⟨p, hp, hr⟩
    have hz := List.of_mem_zip hp
    rcases hz with ⟨h1, h2⟩
    simp at hr
    rcases hr with hr | hr
    · subst hr
      exact Or.inl (List.mem_of_mem_take h1)
    · subst hr
      exact Or.inr h2

theorem selectResults_mem (cfg : Config) (st : CState) (l : List SeqRecord)
    (r : SeqRecord) (h : selectResults cfg st = .ok l) (hm : r ∈ l) :
    r ∈ st.resRef ∨ r ∈ st.resAlt := by
  unfold selectResults at h
  rcases ho : cfg.outType <;> rw [ho] at h
  · injection h with h'
    subst h'
    exact Or.inl hm
  · injection h with h'
    subst h'
    exact Or.inr hm
  · rcases hi : pyInterleave st.resRef st.resAlt with _ | l' <;> rw [hi] at h
    · cases h
    · injection h with h'
      subst h'
      exact mem_pyInterleave _ _ _ r hi hm

/-! ## Every accepted pair carries sequences of length K -/

theorem fieldsAccepted_lengths (cfg : Config) (g : Genome) (numRow : Nat)
    (fields : List (List Char)) (pr : SeqRecord × SeqRecord)
    (h : pr ∈ fieldsAccepted cfg g numRow fields) :
    (pr.1.sequence.length : Int) = cfg.size ∧
    (pr.2.sequence.length : Int) = cfg.size := by
  rcases fields with _ | ⟨chr, _ | ⟨position, _ | ⟨idc, _ | ⟨ref, _ | ⟨altsCol, rest5⟩⟩⟩⟩⟩
  · cases h
  · cases h
  · cases h
  · cases h
  · cases h
  · simp only [fieldsAccepted] at h
    split_ifs at h with hcols
    · cases h
    · rw [List.mem_filterMap] at h
      rcases h with ⟨alt, -, hacc⟩
      exact acceptedOfAllele_lengths cfg g numRow _ chr position ref alt pr hacc

theorem rowAccepted_lengths (cfg : Config) (g : Genome) (numRow : Nat)
    (row : List Char) (pr : SeqRecord × SeqRecord)
    (h : pr ∈ rowAccepted cfg g numRow row) :
    (pr.1.sequence.length : Int) = cfg.size ∧
    (pr.2.sequence.length : Int) = cfg.size := by
  unfold rowAccepted at h
  split_ifs at h
  · cases h
  · exact fieldsAccepted_lengths cfg g numRow _ pr h

theorem orderedAccepted_lengths (cfg : Config) (g : Genome) (n : Nat)
    (rows : List (List Char)) (pr : SeqRecord × SeqRecord)
    (h : pr ∈ orderedAccepted cfg g n rows) :
    (pr.1.sequence.length : Int) = cfg.size ∧
    (pr.2.sequence.length : Int) = cfg.size := by
  induction rows generalizing n with
  | nil =>
    unfold orderedAccepted at h
    cases h
  | cons row rest ih =>
    unfold orderedAccepted at h
    rw [List.mem_append] at h
    rcases h with h | h
    · exact rowAccepted_lengths cfg g (n + 1) row pr h
    · exact ih (n + 1) h

/-! ## Characterization of a successful `compute` -/

theorem compute_ok_shape (cfg : Config) (g : Genome) (rows : List (List Char))
    (res : List SeqRecord) (ws : List Warning)
    (h : compute cfg g rows = .ok (res, ws)) :
    (cfg.outType = .ref → res = (orderedAccepted cfg g 0 rows).map Prod.fst) ∧
    (cfg.outType = .alt → res = (orderedAccepted cfg g 0 rows).map Prod.snd) ∧
    (cfg.outType = .both →
      res = (orderedAccepted cfg g 0 rows).flatMap fun pr => [pr.1, pr.2]) := by
  rcases hf : foldRows cfg g 0 rows ⟨[], [], []⟩ with e | st <;>
    simp only [compute, hf] at h
  · cases h
  rcases foldRows_ok cfg g 0 rows _ st hf with ⟨hr, ha⟩
  simp only [List.nil_append] at hr ha
  rcases hs : selectResults cfg st with e | l <;> simp only [hs] at h
  · cases h
  injection h with h'
  rw [Prod.mk.injEq] at h'
  rcases h' with ⟨hres, -⟩
  subst hres
  unfold selectResults at hs
  have hlen : st.resRef.length = st.resAlt.length := by
    rw [hr, ha]
    simp
  refine ⟨?_, ?_, ?_⟩ <;> intro ho <;> rw [ho] at hs
  · injection hs with h2
    rw [← h2, hr]
  · injection hs with h2
    rw [← h2, ha]
  · rw [pyInterleave_of_eq_length _ _ hlen] at hs
    injection hs with h2
    rw [← h2, hr, ha, zip_map_fst_snd]

theorem compute_ok_lengths (cfg : Config) (g : Genome) (rows : List (List Char))
    (res : List SeqRecord) (ws : List Warning) (r : SeqRecord)
    (h : compute cfg g rows = .ok (res, ws)) (hm : r ∈ res) :
    (r.sequence.length : Int) = cfg.size := by
  rcases hf : foldRows cfg g 0 rows ⟨[], [], []⟩ with e | st <;>
    simp only [compute, hf] at h
  · cases h
  rcases foldRows_ok cfg g 0 rows _ st hf with ⟨hr, ha⟩
  simp only [List.nil_append] at hr ha
  rcases hs : selectResults cfg st with e | l <;> simp only [hs] at h
  · cases h
  injection h with h'
  rw [Prod.mk.injEq] at h'
  rcases h' with ⟨hres, -⟩
  subst hres
  rcases selectResults_mem cfg st l r hs hm with hmem | hmem
  · rw [hr, List.mem_map] at hmem
    rcases hmem with ⟨pr, hpr, hrr⟩
    rw [← hrr]
    exact (orderedAccepted_lengths cfg g 0 rows pr hpr).1
  · rw [ha, List.mem_map] at hmem
    rcases hmem with ⟨pr, hpr, hrr⟩
    rw [← hrr]
    exact (orderedAccepted_lengths cfg g 0 rows pr hpr).2

/-! ## A non-parseable position column is always fatal -/

theorem splitOnChar_ne_nil (sep : Char) (l : List Char) :
    splitOnChar sep l ≠ [] := by
  induction l with
  | nil => simp [splitOnChar]
  | cons c rest ih =>
    simp only [splitOnChar]
    by_cases hc : c = sep
    · simp [hc]
    · rw [if_neg hc]
      rcases hr : splitOnChar sep rest with _ | ⟨hh, tt⟩ <;> simp

theorem not_isPySpace_of_digit (c : Char) (h : c.isDigit = true) :
    isPySpace c = false := by
  by_contra hns
  rw [Bool.not_eq_false] at hns
  unfold isPySpace at hns
  simp only [Bool.or_eq_true, beq_iff_eq] at hns
  rcases hns with ((((h1 | h1) | h1) | h1) | h1) | h1 <;> subst h1 <;>
    exact absurd h (by decide)

theorem dropWhile_digits (m : List Char) (hm : m.all Char.isDigit = true) :
    m.dropWhile isPySpace = m := by
  cases m with
  | nil => rfl
  | cons c t =>
    rw [List.all_cons, Bool.and_eq_true] at hm
    rw [List.dropWhile_cons, not_isPySpace_of_digit c hm.1]
    simp

theorem pyStrip_digits (l : List Char) (hall : l.all Char.isDigit = true) :
    pyStrip l = l := by
  unfold pyStrip
  rw [dropWhile_digits l hall,
      dropWhile_digits l.reverse (by simpa using hall),
      List.reverse_reverse]

theorem pyInt_isSome_of_isdigit (l : List Char) (h : pyIsdigit l = true) :
    ∃ n, pyInt l = some n := by
  unfold pyIsdigit at h
  rw [Bool.and_eq_true] at h
  rcases h with ⟨hne, hall⟩
  rcases l with _ | ⟨c, rest⟩
  · simp at hne
  · have hcd : c.isDigit = true := by
      rw [List.all_cons, Bool.and_eq_true] at hall
      exact hall.1
    have hcp : c ≠ '+' := by
      intro hc
      subst hc
      exact absurd hcd (by decide)
    have hcm : c ≠ '-' := by
      intro hc
      subst hc
      exact absurd hcd (by decide)
    refine ⟨(digitsVal (c :: rest) : Int), ?_⟩
    unfold pyInt
    rw [pyStrip_digits _ hall]
    simp only [if_neg hcp, if_neg hcm, if_pos hall]

theorem evalAllele_err_of_pyInt_none (cfg : Config) (g : Genome) (numRow : Nat)
    (fields : List (List Char)) (chr position ref alt : List Char)
    (hp : pyInt position = none) :
    ∃ e, evalAllele cfg g numRow fields chr position ref alt = .error e := by
  unfold evalAllele
  rcases h1 : checkFirstBase cfg numRow ref with e | u
  · exact ⟨e, rfl⟩
  · rcases h2 : checkFirstBase cfg numRow alt with e | u'
    · exact ⟨e, rfl⟩
    · rw [hp]
      exact ⟨.intParseFail position, rfl⟩

theorem foldAlts_err_of_pyInt_none (cfg : Config) (g : Genome) (numRow : Nat)
    (fields : List (List Char)) (chr position ref : List Char)
    (st : CState) (alts : List (List Char)) (halts : alts ≠ [])
    (hp : pyInt position = none) :
    ∃ e, foldAlts cfg g numRow fields chr position ref st alts = .error e := by
  rcases alts with _ | ⟨a, rest⟩
  · exact absurd rfl halts
  · rcases evalAllele_err_of_pyInt_none cfg g numRow fields chr position ref a hp with ⟨e, he⟩
    refine ⟨e, ?_⟩
    unfold foldAlts stepAllele
    rw [he]

theorem processFields_err_of_pyInt_none (cfg : Config) (g : Genome)
    (numRow : Nat) (fields : List (List Char)) (st : CState)
    (hp : pyInt (fields.getD 1 []) = none) :
    ∃ e, processFields cfg g numRow fields st = .error e := by
  rcases fields with _ | ⟨chr, _ | ⟨position, _ | ⟨idc, _ | ⟨ref, _ | ⟨altsCol, rest5⟩⟩⟩⟩⟩
  · exact ⟨_, rfl⟩
  · exact ⟨_, rfl⟩
  · exact ⟨_, rfl⟩
  · exact ⟨_, rfl⟩
  · exact ⟨_, rfl⟩
  · simp only [processFields]
    by_cases hcols : cfg.addCols ≠ [] ∧
        maxNat cfg.addCols > (chr :: position :: idc :: ref :: altsCol :: rest5).length
    · rw [if_pos hcols]
      exact ⟨_, rfl⟩
    · rw [if_neg hcols]
      exact foldAlts_err_of_pyInt_none cfg g numRow _ chr position ref st
        (splitOnChar ',' altsCol) (splitOnChar_ne_nil ',' altsCol) hp

theorem processRow_err_of_pyInt_none (cfg : Config) (g : Genome) (numRow : Nat)
    (row : List Char) (st : CState)
    (hne : rstripNl row ≠ []) (hnc : startsHash row = false)
    (hp : pyInt ((splitOnChar '\t' (rstripNl row)).getD 1 []) = none) :
    ∃ e, processRow cfg g numRow row st = .error e := by
  unfold processRow
  rw [if_neg (by simp [hne, hnc])]
  exact processFields_err_of_pyInt_none cfg g numRow _ st hp

theorem foldRows_err_of_pyInt_none (cfg : Config) (g : Genome) (n : Nat)
    (rows : List (List Char)) (st : CState) (r : List Char) (hmem : r ∈ rows)
    (hne : rstripNl r ≠ []) (hnc : startsHash r = false)
    (hp : pyInt ((splitOnChar '\t' (rstripNl r)).getD 1 []) = none) :
    ∃ e, foldRows cfg g n rows st = .error e := by
  induction rows generalizing n st with
  | nil => cases hmem
  | cons row rest ih =>
    rw [List.mem_cons] at hmem
    unfold foldRows
    rcases hmem with hmem | hmem
    · subst hmem
      rcases processRow_err_of_pyInt_none cfg g (n + 1) r st hne hnc hp with ⟨e, he⟩
      rw [he]
      exact ⟨e, rfl⟩
    · rcases hpr : processRow cfg g (n + 1) row st with e | st'
      · exact ⟨e, rfl⟩
      · exact ih (n + 1) st' hmem

theorem run_err_of_pyInt_none (cfg : Config) (g : Genome)
    (rows : List (List Char)) (r : List Char) (hmem : r ∈ rows)
    (hne : rstripNl r ≠ []) (hnc : startsHash r = false)
    (hp : pyInt ((splitOnChar '\t' (rstripNl r)).getD 1 []) = none) :
    ∃ e, run cfg g rows = .error e := by
  unfold run
  rcases hv : vcf_ctrl cfg g rows with e | u
  · exact ⟨e, rfl⟩
  · rcases foldRows_err_of_pyInt_none cfg g 0 rows ⟨[], [], []⟩ r hmem hne hnc hp with ⟨e, he⟩
    refine ⟨e, ?_⟩
    simp only [compute, he]

/-! ## Oversized alternate alleles: flanks collapse and the pair is rejected -/

theorem fdiv_neg_of_lt (n : Int) (h : n < 0) : Int.fdiv n 2 < 0 := by
  rw [Int.fdiv_eq_ediv n (by norm_num : (0 : Int) ≤ 2)]
  omega

theorem computePair_alt_of_long (cfg : Config) (gseq : List Char)
    (posInt : Int) (ref alt : List Char)
    (hblank : alt ≠ cfg.blank) (hlong : (alt.length : Int) > cfg.size) :
    (windowCalc cfg alt).l1 < 0 ∧ (windowCalc cfg alt).l3 ≤ 0 ∧
    (computePair cfg gseq posInt ref alt).2 = alt := by
  have he : effLen cfg alt = (alt.length : Int) := by
    simp [effLen, hblank]
  have hl1 : (windowCalc cfg alt).l1 < 0 := by
    simp only [windowCalc, he]
    exact fdiv_neg_of_lt _ (by omega)
  have hcorr := corr_le_one_of_ne_blank cfg alt hblank
  have hfde : Int.fdiv (cfg.size - (alt.length : Int)) 2 < 0 :=
    fdiv_neg_of_lt _ (by omega)
  have hl3 : (windowCalc cfg alt).l3 ≤ 0 := by
    simp only [windowCalc, he]
    omega
  refine ⟨hl1, hl3, ?_⟩
  simp only [computePair, if_neg hblank]
  rw [fetch_nil_of_le gseq (by omega : posInt - 1 ≤ posInt - 1 - (windowCalc cfg alt).l1),
      fetch_nil_of_le gseq (by omega :
        posInt - 1 + (windowCalc cfg ref).l2 + (windowCalc cfg alt).l3 ≤
          posInt - 1 + (windowCalc cfg ref).l2)]
  simp

theorem evalCore_reject_of_long_alt (cfg : Config) (numRow : Nat)
    (fields : List (List Char)) (chr position ref alt : List Char)
    (posInt : Int) (gseq : List Char)
    (hblank : alt ≠ cfg.blank) (hlong : (alt.length : Int) > cfg.size) :
    ∃ ws, evalCore cfg numRow fields chr position ref alt posInt gseq = (ws, none) ∧
      Warning.altTooLong alt.length cfg.size numRow ∈ ws ∧
      Warning.largeAlteration chr position ref alt ∈ ws := by
  rcases computePair_alt_of_long cfg gseq posInt ref alt hblank hlong with ⟨-, -, hpair⟩
  have hw1 : ((max ref.length alt.length : Nat) : Int) > cfg.size := by
    have : alt.length ≤ max ref.length alt.length := Nat.le_max_right _ _
    have hc : ((alt.length : Nat) : Int) ≤ ((max ref.length alt.length : Nat) : Int) := by
      exact_mod_cast this
    omega
  simp only [evalCore]
  rw [hpair]
  rw [if_neg (by
    rintro ⟨-, hc2⟩
    omega)]
  rw [if_pos (by omega : (alt.length : Int) > cfg.size)]
  refine ⟨_, rfl, ?_, ?_⟩
  · simp
  · rw [if_pos hw1]
    simp

/-! ## Substitutions: REF and ALT windows differ only in the center base -/

theorem computePair_substitution (cfg : Config) (gseq : List Char)
    (posInt : Int) (ref alt : List Char)
    (hr1 : ref.length = 1) (ha1 : alt.length = 1)
    (hrb : ref ≠ cfg.blank) (hab : alt ≠ cfg.blank)
    (hRlen : ((computePair cfg gseq posInt ref alt).1.length : Int) = cfg.size)
    (hAlen : ((computePair cfg gseq posInt ref alt).2.length : Int) = cfg.size) :
    windowCalc cfg ref = windowCalc cfg alt ∧
    ∃ L ch R,
      (computePair cfg gseq posInt ref alt).1 = L ++ [ch] ++ R ∧
      (computePair cfg gseq posInt ref alt).2 = L ++ alt ++ R ∧
      (L.length : Int) = (windowCalc cfg ref).l1 ∧
      (R.length : Int) = (windowCalc cfg ref).l3 ∧
      L = fetch gseq (posInt - 1 - (windowCalc cfg ref).l1) (posInt - 1) ∧
      R = fetch gseq posInt (posInt + (windowCalc cfg ref).l3) ∧
      gseq[(posInt - 1).toNat]? = some ch := by
  have heffr : effLen cfg ref = 1 := by
    simp [effLen, hrb, hr1]
  have heffa : effLen cfg alt = 1 := by
    simp [effLen, hab, ha1]
  have hcorr : corr cfg ref = corr cfg alt := by
    unfold corr
    rw [hr1, ha1]
    simp [hrb, hab]
  have hwc : windowCalc cfg ref = windowCalc cfg alt := by
    unfold windowCalc
    rw [heffr, heffa, hcorr]
  have hl2 : (windowCalc cfg ref).l2 = 1 := heffr
  have hsum : (windowCalc cfg ref).l1 + 1 + (windowCalc cfg ref).l3 = cfg.size := by
    have := windowCalc_sum_of_ne_blank cfg ref hrb
    omega
  set l1 := (windowCalc cfg ref).l1 with hldef1
  set l3 := (windowCalc cfg ref).l3 with hldef3
  set p0 := posInt - 1 with hp0
  have hargs : p0 + (windowCalc cfg ref).l2 + l3 = p0 + 1 + l3 := by
    omega
  have hsplitA : (computePair cfg gseq posInt ref alt).2 =
      fetch gseq (p0 - l1) p0 ++ alt ++ fetch gseq (p0 + 1) (p0 + 1 + l3) := by
    simp only [computePair, if_neg hab, ← hwc, ← hldef1, ← hldef3, ← hp0, hl2]
  have hsplitR0 : (computePair cfg gseq posInt ref alt).1 =
      fetch gseq (p0 - l1) (p0 + 1 + l3) := by
    simp only [computePair, ← hldef1, ← hldef3, ← hp0, hl2]
  set A1 := fetch gseq (p0 - l1) p0 with hA1
  set A3 := fetch gseq (p0 + 1) (p0 + 1 + l3) with hA3
  have hKpos : 1 ≤ cfg.size := by
    rw [hsplitA] at hAlen
    simp only [List.length_append, ha1] at hAlen
    omega
  have hl1nn : 0 ≤ l1 := by
    rw [hldef1]
    simp only [windowCalc, heffr]
    exact Int.fdiv_nonneg (by omega) (by norm_num)
  have hl3nn : 0 ≤ l3 := by
    have hc := corr_nonneg cfg ref
    rw [hldef3]
    simp only [windowCalc, heffr]
    rw [hldef1] at hl1nn
    simp only [windowCalc, heffr] at hl1nn
    omega
  have hA1le : (A1.length : Int) ≤ l1 := by
    have hfl := fetch_length_le gseq (p0 - l1) p0
    rw [← hA1] at hfl
    have harg : (p0 - (p0 - l1)).toNat = l1.toNat := by
      congr 1
      omega
    rw [harg] at hfl
    omega
  have hA3le : (A3.length : Int) ≤ l3 := by
    have hfl := fetch_length_le gseq (p0 + 1) (p0 + 1 + l3)
    rw [← hA3] at hfl
    have harg : (p0 + 1 + l3 - (p0 + 1)).toNat = l3.toNat := by
      congr 1
      omega
    rw [harg] at hfl
    omega
  have hAlen' : (A1.length : Int) + 1 + (A3.length : Int) = cfg.size := by
    rw [hsplitA] at hAlen
    simp only [List.length_append, ha1] at hAlen
    push_cast at hAlen
    omega
  have hA1eq : (A1.length : Int) = l1 := by omega
  have hA3eq : (A3.length : Int) = l3 := by omega
  have hsplitR : (computePair cfg gseq posInt ref alt).1 =
      A1 ++ fetch gseq p0 (p0 + 1) ++ A3 := by
    rw [hsplitR0,
        fetch_append gseq (by omega : p0 - l1 ≤ p0) (by omega : p0 ≤ p0 + 1 + l3),
        fetch_append gseq (by omega : p0 ≤ p0 + 1) (by omega : p0 + 1 ≤ p0 + 1 + l3),
        ← List.append_assoc]
  have hClen : (fetch gseq p0 (p0 + 1)).length = 1 := by
    rw [hsplitR] at hRlen
    simp only [List.length_append] at hRlen
    push_cast at hRlen
    omega
  rcases fetch_center gseq p0 hClen with ⟨hp0nn, ch, hch, hgs⟩
  refine ⟨hwc, A1, ch, A3, ?_, hsplitA, hA1eq, hA3eq, rfl, ?_, hgs⟩
  · rw [hsplitR, hch]
  · rw [hA3]
    congr 1 <;> omega

/-! ## Claim theorems -/

/-- Claim C1: a pair of sequence records is emitted only if both the computed
reference-window and alternate-window sequences have length exactly K
(`len(ref_seq) == args.size == len(alt_seq)`, line 159), so every record in a
successful `compute` result carries a sequence of length exactly K. -/
theorem c1_emitted_record_length (cfg : Config) (g : Genome)
    (rows : List (List Char)) (res : List SeqRecord) (ws : List Warning)
    (r : SeqRecord) (h : compute cfg g rows = .ok (res, ws)) (hm : r ∈ res) :
    (r.sequence.length : Int) = cfg.size :=
  compute_ok_lengths cfg g rows res ws r h hm

/-- Claim C2: for every allele string and single-character blank marker, the
left flank length is exactly `floor((K - allele_len) / 2)` with `allele_len`
the effective length, the right flank is that same floor value plus the
parity correction `corr` (never added to the left flank), and whenever the
effective length is below K the three window parts sum to exactly K. -/
theorem c2_flank_length_formulas (cfg : Config) (a : List Char)
    (hB : cfg.blank.length = 1) :
    (windowCalc cfg a).l1 = Int.fdiv (cfg.size - effLen cfg a) 2 ∧
    (windowCalc cfg a).l3 = Int.fdiv (cfg.size - effLen cfg a) 2 + corr cfg a ∧
    (effLen cfg a < cfg.size →
      (windowCalc cfg a).l1 + (windowCalc cfg a).l2 + (windowCalc cfg a).l3 =
        cfg.size) :=
  ⟨rfl, rfl, fun _ => windowCalc_sum cfg a hB⟩

/-- Claim C3, counterexample: under odd K (31) with the default
single-character blank marker, a blank allele receives `corr = 1`, not the
claimed `corr = 2` — the code tests the parity of the allele's literal
length (1, odd), not of its effective length (0, even), in lines 122-125. -/
theorem c3_counterexample_blank_corr :
    corr ⟨31, ['.'], OutType.alt, []⟩ ['.'] = 1 ∧
    ¬ corr ⟨31, ['.'], OutType.alt, []⟩ ['.'] = 2 := by
  constructor <;> decide

/-- Claim C3, amended: under odd K the correction is 1 when the allele's
LITERAL character count is even, plus 1 when the allele equals the blank
marker; hence a blank allele with a single-character marker (literal length
1, odd) receives `corr = 1`, which is exactly what keeps its window at
length K. -/
theorem c3_amended_odd_corr (cfg : Config) (a : List Char)
    (hodd : cfg.size % 2 = 1) :
    corr cfg a =
      (if a.length % 2 = 0 then 1 else 0) +
        (if a = cfg.blank then 1 else 0) ∧
    (cfg.blank.length = 1 → corr cfg cfg.blank = 1) := by
  constructor
  · unfold corr
    rw [if_neg (by omega)]
  · intro hB
    rw [corr_blank cfg hB, hodd]

/-- Claim C4: the alternate window is the genome bases over
`[p - left_flank_len_alt, p)` (with `p = position - 1` the 0-based anchor),
then the literal alternate text (empty for the blank marker), then
`right_flank_len_alt` bases starting at `p + ref_allele_len` — the flank
lengths computed from the alternate allele's own effective length, the right
flank anchored after the reference allele's effective extent. -/
theorem c4_alt_window_coordinates (cfg : Config) (gseq : List Char)
    (posInt : Int) (ref alt : List Char) :
    (computePair cfg gseq posInt ref alt).2 =
      fetch gseq ((posInt - 1) - Int.fdiv (cfg.size - effLen cfg alt) 2)
          (posInt - 1) ++
        (if alt = cfg.blank then [] else alt) ++
        fetch gseq ((posInt - 1) + effLen cfg ref)
          ((posInt - 1) + effLen cfg ref +
            (Int.fdiv (cfg.size - effLen cfg alt) 2 + corr cfg alt)) := by
  rfl

/-- Claim C5: when the alternate allele's literal length exceeds K (and it is
not the blank marker), both computed alternate flank lengths are
non-positive, the fetches are empty, the alternate window is the uncapped
literal alternate text, and the allele pair is rejected — dropped, not
truncated — with an `altTooLong` warning stating the alternate window length
and K, in addition to the `largeAlteration` warning already recorded. -/
theorem c5_long_alt_rejected (cfg : Config) (g : Genome) (numRow : Nat)
    (fields : List (List Char)) (chr position ref alt : List Char)
    (posInt : Int) (gseq : List Char)
    (hblank : alt ≠ cfg.blank) (hlong : (alt.length : Int) > cfg.size)
    (href : checkFirstBase cfg numRow ref = .ok ())
    (halt : checkFirstBase cfg numRow alt = .ok ())
    (hpos : pyInt position = some posInt) (hchr : g chr = some gseq) :
    (windowCalc cfg alt).l1 < 0 ∧ (windowCalc cfg alt).l3 ≤ 0 ∧
    (computePair cfg gseq posInt ref alt).2 = alt ∧
    ∃ ws, evalAllele cfg g numRow fields chr position ref alt = .ok (ws, none) ∧
      Warning.altTooLong alt.length cfg.size numRow ∈ ws ∧
      Warning.largeAlteration chr position ref alt ∈ ws := by
  rcases computePair_alt_of_long cfg gseq posInt ref alt hblank hlong with ⟨h1, h2, h3⟩
  rcases evalCore_reject_of_long_alt cfg numRow fields chr position ref alt posInt gseq
    hblank hlong with ⟨ws, hcore, hm1, hm2⟩
  refine ⟨h1, h2, h3, ws, ?_, hm1, hm2⟩
  unfold evalAllele
  rw [href, halt, hpos, hchr]
  exact congrArg Except.ok hcore

/-- Claim C6: any non-comment, non-empty input row whose position column does
not parse as an integer makes the whole run fatal: the first non-comment row
is caught by `vcf_ctrl`'s digit check, any later one by the uncaught
ValueError from `int(position)` at line 131 — either way `run` aborts with an
error (non-zero exit status). -/
theorem c6_nonnumeric_position_fatal (cfg : Config) (g : Genome)
    (rows : List (List Char)) (r : List Char) (hmem : r ∈ rows)
    (hne : rstripNl r ≠ []) (hnc : startsHash r = false)
    (hp : pyInt ((splitOnChar '\t' (rstripNl r)).getD 1 []) = none) :
    ∃ e, run cfg g rows = .error e :=
  run_err_of_pyInt_none cfg g rows r hmem hne hnc hp

/-- Claim C7: when every variant allele pair is rejected (or there are no
variants at all), `compute` returns no records and `write` produces no
output file content — `fh.write` is only reached when `results` is
nonempty. -/
theorem c7_no_content_when_all_rejected (cfg : Config) (g : Genome)
    (rows : List (List Char)) (res : List SeqRecord) (ws : List Warning)
    (h : compute cfg g rows = .ok (res, ws))
    (hrej : orderedAccepted cfg g 0 rows = []) :
    writeContent res = [] := by
  rcases compute_ok_shape cfg g rows res ws h with ⟨h1, h2, h3⟩
  have hres : res = [] := by
    rcases ho : cfg.outType
    · rw [h1 ho, hrej]
      rfl
    · rw [h2 ho, hrej]
      rfl
    · rw [h3 ho, hrej]
      rfl
  rw [hres]
  rfl

/-- Claim C8: a successful `compute` emits exactly the accepted pairs in
input order (rows in order, comma-separated alternates of a row in listed
order): `ref` output is the first projections, `alt` output the second, and
`both` output interleaves them with each REF record immediately preceding
its ALT record. -/
theorem c8_output_order (cfg : Config) (g : Genome) (rows : List (List Char))
    (res : List SeqRecord) (ws : List Warning)
    (h : compute cfg g rows = .ok (res, ws)) :
    (cfg.outType = .ref → res = (orderedAccepted cfg g 0 rows).map Prod.fst) ∧
    (cfg.outType = .alt → res = (orderedAccepted cfg g 0 rows).map Prod.snd) ∧
    (cfg.outType = .both →
      res = (orderedAccepted cfg g 0 rows).flatMap fun pr => [pr.1, pr.2]) :=
  compute_ok_shape cfg g rows res ws h

/-- Claim C9: for a substitution (literal length 1 on both sides, neither
allele blank), accepted REF and ALT windows share the same flank
computation and the same fetched flank content, differing at most in the
single center base: the REF window carries the genome base at the 0-based
anchor, the ALT window the literal alternate base at the same offset. -/
theorem c9_substitution_center_base (cfg : Config) (gseq : List Char)
    (posInt : Int) (ref alt : List Char)
    (hr1 : ref.length = 1) (ha1 : alt.length = 1)
    (hrb : ref ≠ cfg.blank) (hab : alt ≠ cfg.blank)
    (hRlen : ((computePair cfg gseq posInt ref alt).1.length : Int) = cfg.size)
    (hAlen : ((computePair cfg gseq posInt ref alt).2.length : Int) = cfg.size) :
    windowCalc cfg ref = windowCalc cfg alt ∧
    ∃ L ch R,
      (computePair cfg gseq posInt ref alt).1 = L ++ [ch] ++ R ∧
      (computePair cfg gseq posInt ref alt).2 = L ++ alt ++ R ∧
      (L.length : Int) = (windowCalc cfg ref).l1 ∧
      (R.length : Int) = (windowCalc cfg ref).l3 ∧
      L = fetch gseq (posInt - 1 - (windowCalc cfg ref).l1) (posInt - 1) ∧
      R = fetch gseq posInt (posInt + (windowCalc cfg ref).l3) ∧
      gseq[(posInt - 1).toNat]? = some ch :=
  computePair_substitution cfg gseq posInt ref alt hr1 ha1 hrb hab hRlen hAlen

/-- Claim C10: after any successful pass over the rows, the accumulated
`res_ref` and `res_alt` lists have equal length — every acceptance appends
exactly one record to each — so the `both` interleaving loop is defined at
every index and never raises an IndexError. -/
theorem c10_res_lists_equal_length (cfg : Config) (g : Genome)
    (rows : List (List Char)) (st : CState)
    (h : foldRows cfg g 0 rows ⟨[], [], []⟩ = .ok st) :
    st.resRef.length = st.resAlt.length ∧
    (pyInterleave st.resRef st.resAlt).isSome := by
  rcases foldRows_ok cfg g 0 rows _ st h with ⟨hr, ha⟩
  simp only [List.nil_append] at hr ha
  have hlen : st.resRef.length = st.resAlt.length := by
    rw [hr, ha]
    simp
  refine ⟨hlen, ?_⟩
  rw [pyInterleave_of_eq_length _ _ hlen]
  rfl

/-! ## Witness theorems -/

/-- Witness for C1 at a concrete accepted substitution. -/
theorem c1_witness :
    compute cfgEx genomeEx rowsEx = .ok (resEx, []) ∧ recRefEx ∈ resEx ∧
    (recRefEx.sequence.length : Int) = cfgEx.size :=
  ⟨rfl, by decide,
    c1_emitted_record_length cfgEx genomeEx rowsEx resEx [] recRefEx rfl (by decide)⟩

/-- Witness for C2 at K = 7, blank `.`, allele `AT`. -/
theorem c2_witness :
    cfgEx.blank.length = 1 ∧
    ((windowCalc cfgEx wATEx).l1 = Int.fdiv (cfgEx.size - effLen cfgEx wATEx) 2 ∧
     (windowCalc cfgEx wATEx).l3 =
       Int.fdiv (cfgEx.size - effLen cfgEx wATEx) 2 + corr cfgEx wATEx ∧
     (effLen cfgEx wATEx < cfgEx.size →
       (windowCalc cfgEx wATEx).l1 + (windowCalc cfgEx wATEx).l2 +
           (windowCalc cfgEx wATEx).l3 = cfgEx.size)) :=
  ⟨by decide, c2_flank_length_formulas cfgEx wATEx (by decide)⟩

/-- Witness for the amended C3 at odd K = 7. -/
theorem c3_amended_witness :
    cfgEx.size % 2 = 1 ∧
    (corr cfgEx wATEx =
        (if wATEx.length % 2 = 0 then 1 else 0) +
          (if wATEx = cfgEx.blank then 1 else 0) ∧
      (cfgEx.blank.length = 1 → corr cfgEx cfgEx.blank = 1)) :=
  ⟨by decide, c3_amended_odd_corr cfgEx wATEx (by decide)⟩

/-- Witness for C5 at the spec's example: alternate length 40, K = 31. -/
theorem c5_witness :
    (windowCalc cfg31Ex altLongEx).l1 < 0 ∧ (windowCalc cfg31Ex altLongEx).l3 ≤ 0 ∧
    (computePair cfg31Ex gseqEx 100 ['A'] altLongEx).2 = altLongEx ∧
    ∃ ws, evalAllele cfg31Ex genomeEx 1 fieldsC5Ex chr1Ex ("100".toList) ['A'] altLongEx =
        .ok (ws, none) ∧
      Warning.altTooLong altLongEx.length cfg31Ex.size 1 ∈ ws ∧
      Warning.largeAlteration chr1Ex ("100".toList) ['A'] altLongEx ∈ ws :=
  c5_long_alt_rejected cfg31Ex genomeEx 1 fieldsC5Ex chr1Ex ("100".toList) ['A'] altLongEx
    100 gseqEx (by decide) (by decide) rfl rfl rfl rfl

/-- Witness for C6: the run aborts although only the second row has a
non-numeric position. -/
theorem c6_witness : ∃ e, run cfgEx genomeEx rows6Ex = .error e :=
  c6_nonnumeric_position_fatal cfgEx genomeEx rows6Ex ("chr1\tXX\t.\tA\tG".toList)
    (by decide) (by decide) (by decide) (by decide)

/-- Witness for C7: an all-rejected input leaves the output content empty. -/
theorem c7_witness :
    compute cfgEx genomeEx rows7Ex = .ok ([], [Warning.badSize 5 7 1]) ∧
    orderedAccepted cfgEx genomeEx 0 rows7Ex = [] ∧
    writeContent [] = [] :=
  ⟨rfl, rfl,
    c7_no_content_when_all_rejected cfgEx genomeEx rows7Ex [] [Warning.badSize 5 7 1]
      rfl rfl⟩

/-- Witness for C8 at the concrete `both` run. -/
theorem c8_witness :
    compute cfgEx genomeEx rowsEx = .ok (resEx, []) ∧
    ((cfgEx.outType = .ref →
        resEx = (orderedAccepted cfgEx genomeEx 0 rowsEx).map Prod.fst) ∧
     (cfgEx.outType = .alt →
        resEx = (orderedAccepted cfgEx genomeEx 0 rowsEx).map Prod.snd) ∧
     (cfgEx.outType = .both →
        resEx = (orderedAccepted cfgEx genomeEx 0 rowsEx).flatMap fun pr => [pr.1, pr.2])) :=
  ⟨rfl, c8_output_order cfgEx genomeEx rowsEx resEx [] rfl⟩

/-- Witness for C9 at the concrete substitution `A -> G` at position 10. -/
theorem c9_witness :
    windowCalc cfgEx ['A'] = windowCalc cfgEx ['G'] ∧
    ∃ L ch R,
      (computePair cfgEx gseqEx 10 ['A'] ['G']).1 = L ++ [ch] ++ R ∧
      (computePair cfgEx gseqEx 10 ['A'] ['G']).2 = L ++ ['G'] ++ R ∧
      (L.length : Int) = (windowCalc cfgEx ['A']).l1 ∧
      (R.length : Int) = (windowCalc cfgEx ['A']).l3 ∧
      L = fetch gseqEx (10 - 1 - (windowCalc cfgEx ['A']).l1) (10 - 1) ∧
      R = fetch gseqEx 10 (10 + (windowCalc cfgEx ['A']).l3) ∧
      gseqEx[((10 : Int) - 1).toNat]? = some ch :=
  c9_substitution_center_base cfgEx gseqEx 10 ['A'] ['G'] (by decide) (by decide)
    (by decide) (by decide) (by decide) (by decide)

/-- Witness for C10 at the concrete `both` run. -/
theorem c10_witness :
    foldRows cfgEx genomeEx 0 rowsEx ⟨[], [], []⟩ = .ok stEx ∧
    (stEx.resRef.length = stEx.resAlt.length ∧
      (pyInterleave stEx.resRef stEx.resAlt).isSome) :=
  ⟨rfl, c10_res_lists_equal_length cfgEx genomeEx rowsEx stEx rfl⟩

end Vcf2seq
